import Mathlib

/-!
Verification of the task-app reconciliation core (rprosser1426/task-app).

This file gives a shallow embedding, in Lean, of the pure logic of the
application:

* the due-date classifier `dueBucket` and the filter predicate
  `matchesDueFilter` (src/app/tasks/page.tsx),
* the snapshot merge `preserveDoneAssignments` (src/app/tasks/page.tsx and
  the client file src/unnamed/part_000),
* the assignment sync diff of the `PATCH /api/task-assignments` route with
  action "sync", and the "complete"/"reopen" action of the same route
  (src/app/api/task-assignments/route.ts),
* the cascading delete of `DELETE /api/tasks` (src/app/api/tasks/route.ts),
* the per-task in-flight guard of the client function `syncAssignees`.

JavaScript `Date` values are modelled as local-time instants decomposed into
a calendar-day number and a millisecond offset within that day
(`LocalDT`): `setHours(0,0,0,0)` becomes dropping the offset, `getTime()`
becomes `day * msPerDay + ms`.  The database reached through supabase is
modelled as a list of rows; each route handler becomes a pure function from
request plus database to response plus database.
-/

namespace TaskApp

/-! ## Calendar model -/

/-- Milliseconds per local calendar day (DST shifts are not modelled; only
day-level comparisons of midnight-truncated values are ever made). -/
def msPerDay : Int := 86400000

/-- Millisecond offset of 23:59:59.999, the local end of day used by
`dueBucket` for date-only values. -/
def endOfDayMs : Int := 86399999

/-- A local-time instant: calendar day number plus millisecond offset within
the day.  Mirrors a JS `Date` viewed through its local accessors. -/
structure LocalDT where
  day : Int
  ms : Int
deriving DecidableEq

/-- Model of `Date.prototype.getTime()`. -/
def LocalDT.getTime (t : LocalDT) : Int := t.day * msPerDay + t.ms

/-- Model of `d.setHours(0, 0, 0, 0)`: truncate to local midnight. -/
def LocalDT.setMidnight (t : LocalDT) : LocalDT := ⟨t.day, 0⟩

/-- Day number of a civil date (days since 1970-01-01, negative before).
This is the standard civil-calendar day count; it models the day computed by
the JS `new Date(y, m - 1, d, ...)` constructor for an in-range date. -/
def daysFromCivil (y m d : Int) : Int :=
  let y2 := if m ≤ 2 then y - 1 else y
  let era := y2.ediv 400
  let yoe := y2.emod 400
  let doy := (153 * (m + (if m > 2 then -3 else 9)) + 2).ediv 5 + d - 1
  let doe := yoe * 365 + yoe.ediv 4 - yoe.ediv 100 + doy
  era * 146097 + doe - 719468

/-! ## DueClassifier (src/app/tasks/page.tsx, `dueBucket`) -/

/-- A present `due_at` value as the code distinguishes it: either a date-only
string matching `^\d{4}-\d{2}-\d{2}$` (carrying its civil date), or any
other parseable timestamp (carrying the local instant it denotes). -/
inductive DueValue
  | dateOnly (y m d : Int)
  | timestamp (t : LocalDT)
deriving DecidableEq

/-- The four values `dueBucket` can return (`DueFilter | "future"` narrowed
to the actually returned literals). -/
inductive Bucket
  | no_due
  | today
  | late
  | future
deriving DecidableEq, BEq

/-- The due-filter vocabulary (`type DueFilter` in page.tsx; `all` is the
literal `"__all__"`). -/
inductive DueFilter
  | all
  | today
  | late_today
  | late
  | no_due
  | not_due_yet
deriving DecidableEq, BEq

/-- The string literal a bucket denotes in the TS union type. -/
def Bucket.name : Bucket → String
  | .no_due => "no_due"
  | .today => "today"
  | .late => "late"
  | .future => "future"

/-- The string literal a filter denotes in the TS union type. -/
def DueFilter.name : DueFilter → String
  | .all => "__all__"
  | .today => "today"
  | .late_today => "late_today"
  | .late => "late"
  | .no_due => "no_due"
  | .not_due_yet => "not_due_yet"

/-- The `Date` the classifier builds from a present `due_at`: a date-only
value becomes local end of day (23:59:59.999), any other value is used
as-is. -/
def parseDue : DueValue → LocalDT
  | .dateOnly y m d => ⟨daysFromCivil y m d, endOfDayMs⟩
  | .timestamp t => t

/-- Function `dueBucket` from src/app/tasks/page.tsx.  The reference instant `now`
(read by the code via `new Date()`) is passed explicitly. -/
def dueBucket (due_at : Option DueValue) (now : LocalDT) : Bucket :=
  match due_at with
  | none => .no_due
  | some v =>
    let due := parseDue v
    let dueDay := due.setMidnight
    let nowDay := now.setMidnight
    if dueDay.getTime > nowDay.getTime then .future
    else if dueDay.getTime = nowDay.getTime then .today
    else .late

/-- Function `matchesDueFilter` from src/app/tasks/page.tsx.  The final branch is the
TS `bucket === filter` comparison of string literals. -/
def matchesDueFilter (due_at : Option DueValue) (now : LocalDT) (filter : DueFilter) : Bool :=
  if filter == .all then true
  else
    let bucket := dueBucket due_at now
    if filter == .not_due_yet then bucket == .future
    else if filter == .late_today then bucket == .today || bucket == .late
    else bucket.name == filter.name

/-- The local calendar day a present due value denotes once truncated to
midnight: the civil day for a date-only value, the own day of the instant
otherwise. -/
def dueDayOf : DueValue → Int
  | .dateOnly y m d => daysFromCivil y m d
  | .timestamp t => t.day

/-! ## Client data rows (`AssignmentRow` / `TaskRow` in page.tsx) -/

/-- Row type `AssignmentRow` from src/app/tasks/page.tsx. -/
structure AssignmentRow where
  id : String
  task_id : String
  assignee_id : String
  status : Option String
  completed_at : Option String
  completion_note : Option String
  created_at : String
deriving DecidableEq

/-- Row type `TaskRow` from src/app/tasks/page.tsx (`status`/`is_done` are legacy
fields, ignored for completion). -/
structure TaskRow where
  id : String
  title : String
  note : Option String
  status : Option String
  is_done : Bool
  due_at : Option String
  category_id : Option String
  user_id : String
  created_at : Option String
  task_assignments : List AssignmentRow
deriving DecidableEq

/-! ## MergePolicy (`preserveDoneAssignments` in page.tsx / part_000) -/

/-- Lookup `prevMap.get(t.id)`: the code fills a `Map` by iterating `prev` with
`Map.set`, so for a duplicated task id the last occurrence wins. -/
def prevTaskLookup (prev : List TaskRow) (tid : String) : Option TaskRow :=
  (prev.filter (fun t => t.id == tid)).getLast?

/-- Lookup `prevAssignments.get(a.assignee_id)`: the inner `Map` is likewise
filled with `Map.set` over the assignments of the previous task, last
occurrence winning. -/
def prevAssignmentLookup (prev : List TaskRow) (tid aid : String) : Option AssignmentRow :=
  match prevTaskLookup prev tid with
  | none => none
  | some t => (t.task_assignments.filter (fun a => a.assignee_id == aid)).getLast?

/-- The per-assignment body of `preserveDoneAssignments`: if the matching
assignment of the previous snapshot was complete and the next one is not, keep
it complete, with `completed_at` falling back through
`pa.completed_at ?? a.completed_at ?? new Date().toISOString()` and
`completion_note` through `pa.completion_note ?? a.completion_note ?? null`.
`now` stands for `new Date().toISOString()`. -/
def mergeAssignment (now : String) (prev : List TaskRow) (tid : String)
    (a : AssignmentRow) : AssignmentRow :=
  match prevAssignmentLookup prev tid a.assignee_id with
  | none => a
  | some pa =>
    if pa.status = some "complete" ∧ ¬ a.status = some "complete" then
      { a with
        status := some "complete"
        completed_at := some (pa.completed_at.getD (a.completed_at.getD now))
        completion_note := pa.completion_note.orElse (fun _ => a.completion_note) }
    else a

/-- Function `preserveDoneAssignments` from src/app/tasks/page.tsx: an empty (or
absent) previous snapshot returns `next` unchanged; otherwise every task of
`next` keeps its fields and has each of its assignments merged against the
previous snapshot. -/
def preserveDoneAssignments (now : String) (prev next : List TaskRow) : List TaskRow :=
  if prev.isEmpty then next
  else
    next.map fun t =>
      { t with task_assignments := t.task_assignments.map (mergeAssignment now prev t.id) }

/-! Concrete snapshots exercising the merge: in `prevC1` assignee `A` of
task `T` is complete with no recorded `completed_at`/`completion_note`; the
fresh `nextC1` reports the same assignment open but carrying a
`completed_at` of `"X"` and a note `"N"`. -/

/-- Previous assignment row: complete, no completion timestamp or note. -/
def prevRowC1 : AssignmentRow :=
  { id := "a1", task_id := "T", assignee_id := "A", status := some "complete"
    completed_at := none, completion_note := none, created_at := "c0" }

/-- Next (freshly fetched) assignment row: open, but with a stored
`completed_at` of `"X"` and note `"N"`. -/
def nextRowC1 : AssignmentRow :=
  { id := "a1", task_id := "T", assignee_id := "A", status := some "open"
    completed_at := some "X", completion_note := some "N", created_at := "c0" }

/-- Previous snapshot task holding `prevRowC1`. -/
def prevTaskC1 : TaskRow :=
  { id := "T", title := "t", note := none, status := none, is_done := false
    due_at := none, category_id := none, user_id := "U", created_at := none
    task_assignments := [prevRowC1] }

/-- Next snapshot task holding `nextRowC1`. -/
def nextTaskC1 : TaskRow :=
  { prevTaskC1 with task_assignments := [nextRowC1] }

/-! ## Remote store and the `PATCH /api/task-assignments` route -/

/-- A `task_assignments` row as the API routes read and write it. -/
structure DbAssign where
  id : String
  task_id : String
  assignee_id : String
  status : String
  completed_at : Option String
deriving DecidableEq

/-- The session produced by `getSessionFromCookie`; the routes test only
`sess.ok`. -/
structure Session where
  ok : Bool
  userId : Option String
  accessCodeId : Option String
  role : Option String
deriving DecidableEq

/-- Insertion loop of a JS `Set`: elements already seen are skipped, new
ones are kept, preserving insertion order. -/
def jsSetGo (seen : List String) : List String → List String
  | [] => []
  | x :: xs => if x ∈ seen then jsSetGo seen xs else x :: jsSetGo (x :: seen) xs

/-- A JS `Set` built by inserting the elements of a list in order and spread back
to a list: first occurrence of each element kept, in insertion order. -/
def jsSetList (l : List String) : List String := jsSetGo [] l

/-- The set `new Set(existing.map(r => r.assignee_id))` of the sync action: the
assignee ids currently stored for this task, deduplicated. -/
def existingIdsOf (db : List DbAssign) (taskId : String) : List String :=
  jsSetList ((db.filter (fun r => r.task_id == taskId)).map (fun r => r.assignee_id))

/-- The list `toRemove = [...existingIds].filter(id => !desiredIds.has(id))`. -/
def syncToRemove (db : List DbAssign) (taskId : String) (nextIds : List String) : List String :=
  (existingIdsOf db taskId).filter (fun i => decide (i ∉ jsSetList nextIds))

/-- The list `toAdd = [...desiredIds].filter(id => !existingIds.has(id))`. -/
def syncToAdd (db : List DbAssign) (taskId : String) (nextIds : List String) : List String :=
  (jsSetList nextIds).filter (fun i => decide (i ∉ existingIdsOf db taskId))

/-- The row the sync action inserts for a newly added assignee (`status:
"open"`, `completed_at: null`; the database-generated primary key is not
modelled). -/
def newSyncRow (taskId aid : String) : DbAssign :=
  { id := "", task_id := taskId, assignee_id := aid, status := "open", completed_at := none }

/-- One row of the `upsert` with `onConflict: "task_id,assignee_id"`: if a
row with the same conflict key exists it is overwritten, else the row is
appended. -/
def upsertRow (db : List DbAssign) (r : DbAssign) : List DbAssign :=
  if db.any (fun x => x.task_id == r.task_id && x.assignee_id == r.assignee_id) then
    db.map (fun x =>
      if x.task_id == r.task_id && x.assignee_id == r.assignee_id then r else x)
  else db ++ [r]

/-- The database effect of the "sync" action: delete the rows of this task whose
assignee is in `toRemove` (`.eq("task_id", taskId).in("assignee_id",
toRemove)`), then upsert an open row for each id in `toAdd`. -/
def applySync (db : List DbAssign) (taskId : String) (nextIds : List String) : List DbAssign :=
  let toRemove := syncToRemove db taskId nextIds
  let db1 := db.filter (fun r => !(r.task_id == taskId && decide (r.assignee_id ∈ toRemove)))
  (syncToAdd db taskId nextIds).foldl (fun acc i => upsertRow acc (newSyncRow taskId i)) db1

/-- The "sync" branch of `PATCH /api/task-assignments` as (HTTP status,
resulting rows): 401 when the session is not ok, otherwise the diff is
applied and the action replies ok.  (Request-shape validation and remote
I/O failures are outside the model.) -/
def syncAction (sess : Session) (taskId : String) (nextIds : List String)
    (db : List DbAssign) : Nat × List DbAssign :=
  if ¬ sess.ok = true then (401, db)
  else (200, applySync db taskId nextIds)

/-- The "complete"/"reopen" branch of `PATCH /api/task-assignments`:
401 unauthenticated; select the rows for (taskId, assigneeId); none → 400;
more than one → 409 (duplicate detection, nothing written); exactly one →
update that row by id to the new status with `completed_at` set to `now`
on complete and cleared on reopen, replying 200. -/
def completeReopen (now : String) (sess : Session) (isComplete : Bool)
    (taskId assigneeId : String) (db : List DbAssign) : Nat × List DbAssign :=
  if ¬ sess.ok = true then (401, db)
  else
    let nextStatus := if isComplete then "complete" else "open"
    let nextCompletedAt : Option String := if isComplete then some now else none
    match db.filter (fun r => r.task_id == taskId && r.assignee_id == assigneeId) with
    | [] => (400, db)
    | [row] =>
      (200, db.map (fun r =>
        if r.id == row.id then { r with status := nextStatus, completed_at := nextCompletedAt }
        else r))
    | _ => (409, db)

/-- Function `targetAssigneeIdForTaskActions` from page.tsx: an admin acts as the
selected `actingAssigneeId`; every other caller acts as themselves
(`userId || accessCodeId || null`, an empty string being falsy). -/
def targetAssigneeIdForTaskActions (isAdmin : Bool) (actingAssigneeId : Option String)
    (userId accessCodeId : String) : Option String :=
  if isAdmin then actingAssigneeId
  else if userId ≠ "" then some userId
  else if accessCodeId ≠ "" then some accessCodeId
  else none

/-- The pair (taskId, assigneeId) has at least one stored row. -/
def hasAssignment (db : List DbAssign) (taskId aid : String) : Prop :=
  ∃ r ∈ db, r.task_id = taskId ∧ r.assignee_id = aid

/-! ## `DELETE /api/tasks` -/

/-- A `tasks` row as the DELETE route touches it. -/
structure DbTask where
  id : String
  title : String
deriving DecidableEq

/-- The remote store seen by the tasks route. -/
structure Db where
  tasks : List DbTask
  assignments : List DbAssign
deriving DecidableEq

/-- First delete of the route: all `task_assignments` rows of the task. -/
def deleteAssignmentsOf (id : String) (db : Db) : Db :=
  { db with assignments := db.assignments.filter (fun r => !(r.task_id == id)) }

/-- Second delete of the route: the `tasks` row itself. -/
def deleteTaskRow (id : String) (db : Db) : Db :=
  { db with tasks := db.tasks.filter (fun t => !(t.id == id)) }

/-- Route `DELETE /api/tasks`: 401 unauthenticated, 400 on a missing id, else the
assignment rows of the task are removed first and then the task row. -/
def deleteTaskApi (sess : Session) (id : String) (db : Db) : Nat × Db :=
  if ¬ sess.ok = true then (401, db)
  else if id = "" then (400, db)
  else (200, deleteTaskRow id (deleteAssignmentsOf id db))

/-! ## The per-task in-flight guard of `syncAssignees` -/

/-- Guard state of the client: `saving` is the `savingAssignments` flag map;
`active` is a ghost count of sync operations for each task currently
between their guard check and their `finally` block. -/
structure GuardState where
  saving : String → Bool
  active : String → Nat

/-- Initial client state: nothing in flight. -/
def GuardState.init : GuardState := ⟨fun _ => false, fun _ => 0⟩

/-- Entry of `syncAssignees`: `if (savingAssignments[taskId]) return;` —
when the flag is up the call returns at once (rejected, no write issued,
state unchanged); otherwise the flag is raised and the call proceeds to
issue its writes.  The `Bool` reports whether the call was accepted. -/
def callSync (s : GuardState) (t : String) : GuardState × Bool :=
  if s.saving t then (s, false)
  else
    ({ saving := fun x => if x == t then true else s.saving x,
       active := fun x => if x == t then s.active x + 1 else s.active x }, true)

/-- The `finally` block of an accepted call: the flag is lowered and the
operation leaves flight. -/
def finishSync (s : GuardState) (t : String) : GuardState :=
  { saving := fun x => if x == t then false else s.saving x,
    active := fun x => if x == t then s.active x - 1 else s.active x }

/-- Observable scheduler events of the single-threaded client: a
`syncAssignees` invocation for a task, or the resolution of an in-flight
one. -/
inductive GuardEvent
  | call (t : String)
  | finish (t : String)

/-- One cooperative step. -/
def guardStep (s : GuardState) : GuardEvent → GuardState
  | .call t => (callSync s t).1
  | .finish t => finishSync s t

/-- The state after a sequence of events from the initial state. -/
def guardRun (l : List GuardEvent) : GuardState :=
  l.foldl guardStep .init

/-- The guard invariant: the flag is up exactly while one operation is in
flight. -/
def GuardInv (s : GuardState) : Prop :=
  ∀ t, s.active t = if s.saving t then 1 else 0

/-! Concrete fixtures for the route-handler results. -/

/-- An authenticated non-admin session for user `U`. -/
def sessC7 : Session :=
  { ok := true, userId := some "U", accessCodeId := none, role := some "user" }

/-- An authenticated admin session. -/
def sessOk : Session :=
  { ok := true, userId := some "Adm", accessCodeId := none, role := some "admin" }

/-- An open assignment of task `T` to assignee `V` (a different identity
than `U`). -/
def rowC7 : DbAssign :=
  { id := "r1", task_id := "T", assignee_id := "V", status := "open", completed_at := none }

/-- First of two duplicate rows for the pair `(T, A)`. -/
def dupRow1 : DbAssign :=
  { id := "d1", task_id := "T", assignee_id := "A", status := "open", completed_at := none }

/-- Second duplicate row for the same pair `(T, A)`. -/
def dupRow2 : DbAssign :=
  { id := "d2", task_id := "T", assignee_id := "A", status := "complete",
    completed_at := some "t1" }

/-- The task row `T`. -/
def taskT : DbTask := { id := "T", title := "Ship report" }

/-- A store holding task `T` with two assignment rows. -/
def dbC9 : Db := { tasks := [taskT], assignments := [dupRow1, rowC7] }

end TaskApp

namespace TaskApp

/-- C2: `dueBucket` returns `no_due` exactly on an absent `due_at`, and
otherwise classifies by comparing the midnight-truncated calendar day of the
due value with the midnight-truncated calendar day of `now`: `future` when
the due day is later, `today` when equal, `late` when earlier. -/
theorem dueBucket_calendar_day :
    (∀ now : LocalDT, dueBucket none now = .no_due) ∧
    (∀ (v : DueValue) (now : LocalDT),
      dueBucket (some v) now =
        if dueDayOf v > now.day then .future
        else if dueDayOf v = now.day then .today
        else .late) := by
  refine ⟨fun _ => rfl, fun v now => ?_⟩
  cases v with
  | dateOnly y m d =>
    show (if daysFromCivil y m d * msPerDay + 0 > now.day * msPerDay + 0 then Bucket.future
          else if daysFromCivil y m d * msPerDay + 0 = now.day * msPerDay + 0 then Bucket.today
          else Bucket.late) = _
    simp only [msPerDay, dueDayOf, gt_iff_lt]
    split_ifs with h1 h2 h3 <;> first | rfl | omega
  | timestamp t =>
    show (if t.day * msPerDay + 0 > now.day * msPerDay + 0 then Bucket.future
          else if t.day * msPerDay + 0 = now.day * msPerDay + 0 then Bucket.today
          else Bucket.late) = _
    simp only [msPerDay, dueDayOf, gt_iff_lt]
    split_ifs with h1 h2 h3 <;> first | rfl | omega

/-- C10: for a date-only `due_at`, the bucket is the same as if the value
were interpreted at local midnight of that day instead of end of day:
truncation to midnight erases the time-of-day interpretation. -/
theorem dateOnly_bucket_eq_midnight_bucket (y m d : Int) (now : LocalDT) :
    dueBucket (some (.dateOnly y m d)) now =
      dueBucket (some (.timestamp ⟨daysFromCivil y m d, 0⟩)) now := rfl

/-- C3: the characterisation of the filter predicate: `late_today` matches
exactly the buckets `today` and `late`; `not_due_yet` matches exactly
`future`; `all` always matches; `today`, `late` and `no_due` match exactly
their own bucket. -/
theorem matchesDueFilter_spec (d : Option DueValue) (now : LocalDT) :
    (matchesDueFilter d now .late_today = true ↔
      (dueBucket d now = .today ∨ dueBucket d now = .late)) ∧
    (matchesDueFilter d now .not_due_yet = true ↔ dueBucket d now = .future) ∧
    (matchesDueFilter d now .all = true) ∧
    (matchesDueFilter d now .today = true ↔ dueBucket d now = .today) ∧
    (matchesDueFilter d now .late = true ↔ dueBucket d now = .late) ∧
    (matchesDueFilter d now .no_due = true ↔ dueBucket d now = .no_due) := by
  cases h : dueBucket d now <;>
    simp [matchesDueFilter, h, Bucket.name, DueFilter.name] <;> decide

/-- C1 (counterexample): with the previous assignment complete but carrying
no `completed_at`/`completion_note`, and the next snapshot reporting the
assignment open with `completed_at = "X"`, `completion_note = "N"`, the
merge keeps `status = complete` but takes `completed_at`/`completion_note`
from the NEXT record — not, as the claim states, synthesizing
`completedAt = now` (here `"NOW"`) and leaving the note absent. -/
theorem preserveDone_fallback_counterexample :
    prevRowC1.status = some "complete" ∧
    prevRowC1.completed_at = none ∧
    prevRowC1.completion_note = none ∧
    nextRowC1.status = some "open" ∧
    ((preserveDoneAssignments "NOW" [prevTaskC1] [nextTaskC1]).map
        (fun t => t.task_assignments.map (fun a => (a.status, a.completed_at, a.completion_note))))
      = [[(some "complete", some "X", some "N")]] ∧
    (some "X" : Option String) ≠ some "NOW" ∧
    (some "N" : Option String) ≠ none := by
  refine ⟨rfl, rfl, rfl, rfl, rfl, by decide, by decide⟩

/-- C1 (amended): for a non-empty previous snapshot the merge maps every
task of `next` to itself with each assignment merged; and for an assignment
whose previous counterpart (matched by assignee id, within the task matched
by task id) was complete while the next record is not, the merged record is
the next record with `status = complete`, `completed_at` taken from the
previous record if present, else from the next record if present, else
synthesized as `now`, and `completion_note` taken from the previous record
if present, else from the next record (possibly absent). -/
theorem preserveDone_amended (now : String) (prev next : List TaskRow)
    (hprev : ¬ prev.isEmpty = true) (tid : String) (a pa : AssignmentRow)
    (hpa : prevAssignmentLookup prev tid a.assignee_id = some pa)
    (hdone : pa.status = some "complete") (hopen : ¬ a.status = some "complete") :
    preserveDoneAssignments now prev next =
      next.map (fun t =>
        { t with task_assignments := t.task_assignments.map (mergeAssignment now prev t.id) }) ∧
    mergeAssignment now prev tid a =
      { a with
        status := some "complete"
        completed_at := some (pa.completed_at.getD (a.completed_at.getD now))
        completion_note := pa.completion_note.orElse (fun _ => a.completion_note) } := by
  constructor
  · unfold preserveDoneAssignments
    rw [if_neg hprev]
  · simp only [mergeAssignment, hpa]
    rw [if_pos ⟨hdone, hopen⟩]

/-! Helper lemmas about the sync diff (shared by several results below). -/

theorem mem_jsSetGo (x : String) (l : List String) :
    ∀ seen, x ∈ jsSetGo seen l ↔ x ∈ l ∧ x ∉ seen := by
  induction l with
  | nil => intro seen; simp [jsSetGo]
  | cons y ys ih =>
    intro seen
    by_cases hy : y ∈ seen
    · rw [jsSetGo, if_pos hy, ih]
      rcases eq_or_ne x y with rfl | hxy
      · simp [hy]
      · simp [List.mem_cons, hxy]
    · rw [jsSetGo, if_neg hy]
      rcases eq_or_ne x y with rfl | hxy
      · simp [hy]
      · simp only [List.mem_cons, hxy, false_or, ih (y :: seen)]

theorem mem_jsSetList {x : String} {l : List String} : x ∈ jsSetList l ↔ x ∈ l := by
  rw [jsSetList, mem_jsSetGo]
  simp

theorem mem_existingIdsOf {db : List DbAssign} {taskId i : String} :
    i ∈ existingIdsOf db taskId ↔ hasAssignment db taskId i := by
  unfold existingIdsOf hasAssignment
  rw [mem_jsSetList]
  simp only [List.mem_map, List.mem_filter, beq_iff_eq]
  constructor
  · rintro ⟨r, ⟨hr, ht⟩, ha⟩
    exact ⟨r, hr, ht, ha⟩
  · rintro ⟨r, hr, ht, ha⟩
    exact ⟨r, ⟨hr, ht⟩, ha⟩

theorem mem_syncToAdd {db : List DbAssign} {taskId : String} {nextIds : List String}
    {i : String} :
    i ∈ syncToAdd db taskId nextIds ↔ i ∈ nextIds ∧ ¬ hasAssignment db taskId i := by
  unfold syncToAdd
  rw [List.mem_filter, mem_jsSetList]
  simp [mem_existingIdsOf]

theorem mem_syncToRemove {db : List DbAssign} {taskId : String} {nextIds : List String}
    {i : String} :
    i ∈ syncToRemove db taskId nextIds ↔ hasAssignment db taskId i ∧ i ∉ nextIds := by
  unfold syncToRemove
  rw [List.mem_filter, mem_existingIdsOf]
  simp [mem_jsSetList]

theorem hasAssignment_upsertRow {db : List DbAssign} {r : DbAssign} {t i : String} :
    hasAssignment (upsertRow db r) t i ↔
      hasAssignment db t i ∨ (t = r.task_id ∧ i = r.assignee_id) := by
  unfold upsertRow hasAssignment
  split_ifs with h
  · constructor
    · rintro ⟨x, hx, hxt, hxa⟩
      rcases List.mem_map.1 hx with ⟨x0, hx0, hfx⟩
      by_cases hc : (x0.task_id == r.task_id && x0.assignee_id == r.assignee_id) = true
      · rw [if_pos hc] at hfx
        subst hfx
        exact Or.inr ⟨hxt.symm, hxa.symm⟩
      · rw [if_neg hc] at hfx
        subst hfx
        exact Or.inl ⟨x0, hx0, hxt, hxa⟩
    · rintro (⟨x, hx, hxt, hxa⟩ | ⟨ht, ha⟩)
      · by_cases hc : (x.task_id == r.task_id && x.assignee_id == r.assignee_id) = true
        · rcases Bool.and_eq_true_iff.1 hc with ⟨hc1, hc2⟩
          refine ⟨r, List.mem_map.2 ⟨x, hx, by rw [if_pos hc]⟩, ?_, ?_⟩
          · rw [← beq_iff_eq.1 hc1, hxt]
          · rw [← beq_iff_eq.1 hc2, hxa]
        · exact ⟨x, List.mem_map.2 ⟨x, hx, by rw [if_neg hc]⟩, hxt, hxa⟩
      · rcases List.any_eq_true.1 h with ⟨x0, hx0, hc⟩
        exact ⟨r, List.mem_map.2 ⟨x0, hx0, by rw [if_pos hc]⟩, ht.symm, ha.symm⟩
  · constructor
    · rintro ⟨x, hx, hxt, hxa⟩
      rcases List.mem_append.1 hx with hx | hx
      · exact Or.inl ⟨x, hx, hxt, hxa⟩
      · rw [List.mem_singleton.1 hx] at hxt hxa
        exact Or.inr ⟨hxt.symm, hxa.symm⟩
    · rintro (⟨x, hx, hxt, hxa⟩ | ⟨ht, ha⟩)
      · exact ⟨x, List.mem_append_left _ hx, hxt, hxa⟩
      · exact ⟨r, List.mem_append_right _ (List.mem_singleton.2 rfl), ht.symm, ha.symm⟩

theorem hasAssignment_foldl_upsert (l : List String) (db : List DbAssign)
    (taskId t i : String) :
    hasAssignment (l.foldl (fun acc x => upsertRow acc (newSyncRow taskId x)) db) t i ↔
      hasAssignment db t i ∨ (t = taskId ∧ i ∈ l) := by
  induction l generalizing db with
  | nil => simp
  | cons x xs ih =>
    rw [List.foldl_cons, ih, hasAssignment_upsertRow]
    simp only [newSyncRow, List.mem_cons]
    tauto

theorem hasAssignment_filter_remove {db : List DbAssign} {taskId i : String}
    {rem : List String} :
    hasAssignment
        (db.filter (fun r => !(r.task_id == taskId && decide (r.assignee_id ∈ rem)))) taskId i ↔
      hasAssignment db taskId i ∧ i ∉ rem := by
  unfold hasAssignment
  constructor
  · rintro ⟨r, hr, ht, ha⟩
    rcases List.mem_filter.1 hr with ⟨hrdb, hp⟩
    refine ⟨⟨r, hrdb, ht, ha⟩, fun hmem => ?_⟩
    simp [ht, ha, hmem] at hp
  · rintro ⟨⟨r, hrdb, ht, ha⟩, hnmem⟩
    refine ⟨r, List.mem_filter.2 ⟨hrdb, ?_⟩, ht, ha⟩
    simp [ht, ha, hnmem]

theorem hasAssignment_applySync {db : List DbAssign} {taskId : String}
    {nextIds : List String} {i : String} :
    hasAssignment (applySync db taskId nextIds) taskId i ↔ i ∈ nextIds := by
  simp only [applySync]
  rw [hasAssignment_foldl_upsert, hasAssignment_filter_remove, mem_syncToAdd, mem_syncToRemove]
  by_cases hA : hasAssignment db taskId i <;> by_cases hN : i ∈ nextIds <;> simp [hA, hN]

theorem applySync_no_writes {db2 : List DbAssign} {taskId : String} {ids : List String}
    (hA : syncToAdd db2 taskId ids = []) (hR : syncToRemove db2 taskId ids = []) :
    applySync db2 taskId ids = db2 := by
  simp only [applySync, hA, hR, List.foldl_nil]
  rw [List.filter_eq_self]
  intro a _
  simp

/-- C4: the sync action computes exactly `toAdd = desired − current` and
`toRemove = current − desired` from the stored assignee set of the task,
writes only those (removals by delete, additions as fresh open rows), and
the stored assignee set of the task afterwards is exactly the desired set. -/
theorem sync_diff_spec (db : List DbAssign) (taskId : String) (nextIds : List String)
    (i : String) :
    (i ∈ syncToAdd db taskId nextIds ↔ i ∈ nextIds ∧ ¬ hasAssignment db taskId i) ∧
    (i ∈ syncToRemove db taskId nextIds ↔ hasAssignment db taskId i ∧ i ∉ nextIds) ∧
    (hasAssignment (applySync db taskId nextIds) taskId i ↔ i ∈ nextIds) :=
  ⟨mem_syncToAdd, mem_syncToRemove, hasAssignment_applySync⟩

/-- C5: a second sync with the same desired set, issued once the first call, once its
effect is the stored state, computes empty `toAdd` and `toRemove` and
issues no write: the store is left exactly as the first call left it. -/
theorem sync_second_call_no_writes (db : List DbAssign) (taskId : String)
    (nextIds : List String) :
    syncToAdd (applySync db taskId nextIds) taskId nextIds = [] ∧
    syncToRemove (applySync db taskId nextIds) taskId nextIds = [] ∧
    applySync (applySync db taskId nextIds) taskId nextIds = applySync db taskId nextIds := by
  have hAdd : syncToAdd (applySync db taskId nextIds) taskId nextIds = [] := by
    unfold syncToAdd
    rw [List.filter_eq_nil_iff]
    intro a ha
    rw [mem_jsSetList] at ha
    simp [mem_existingIdsOf, hasAssignment_applySync, ha]
  have hRem : syncToRemove (applySync db taskId nextIds) taskId nextIds = [] := by
    unfold syncToRemove
    rw [List.filter_eq_nil_iff]
    intro a ha
    rw [mem_existingIdsOf, hasAssignment_applySync] at ha
    simp [mem_jsSetList, ha]
  exact ⟨hAdd, hRem, applySync_no_writes hAdd hRem⟩

/-- C1 (witness): the amended theorem applied to the concrete snapshots. -/
theorem preserveDone_amended_witness :
    preserveDoneAssignments "NOW" [prevTaskC1] [nextTaskC1] =
      [{ nextTaskC1 with
          task_assignments := [mergeAssignment "NOW" [prevTaskC1] "T" nextRowC1] }] ∧
    mergeAssignment "NOW" [prevTaskC1] "T" nextRowC1 =
      { nextRowC1 with
        status := some "complete", completed_at := some "X", completion_note := some "N" } := by
  have h := preserveDone_amended "NOW" [prevTaskC1] [nextTaskC1] (by decide) "T"
    nextRowC1 prevRowC1 rfl rfl (by decide)
  exact ⟨h.1, h.2⟩

/-! The in-flight guard. -/

theorem guardInv_init : GuardInv GuardState.init := fun _ => rfl

theorem guardInv_step (s : GuardState) (e : GuardEvent) (h : GuardInv s) :
    GuardInv (guardStep s e) := by
  cases e with
  | call t0 =>
    intro t
    simp only [guardStep, callSync]
    by_cases hs : s.saving t0 = true
    · simp only [hs, if_true]
      exact h t
    · simp only [hs, if_false]
      by_cases ht : t = t0
      · subst ht
        simp [h t, hs]
      · have hbeq : (t == t0) = false := beq_eq_false_iff_ne.2 ht
        simp [hbeq, ht, h t]
  | finish t0 =>
    intro t
    simp only [guardStep, finishSync]
    by_cases ht : t = t0
    · subst ht
      simp only [beq_self_eq_true, if_true, h t]
      by_cases hs : s.saving t = true <;> simp [hs]
    · have hbeq : (t == t0) = false := beq_eq_false_iff_ne.2 ht
      simp [hbeq, h t]

theorem guardInv_run (l : List GuardEvent) : GuardInv (guardRun l) := by
  have key : ∀ s, GuardInv s → GuardInv (l.foldl guardStep s) := by
    induction l with
    | nil => exact fun s h => h
    | cons e es ih => exact fun s h => ih _ (guardInv_step s e h)
  exact key _ guardInv_init

/-- C6: from any reachable client state, (a) a `syncAssignees` call for a
task whose flag is up is rejected immediately — the state is unchanged and
the call is not accepted, so no write is issued; (b) at most one sync
operation per task is ever in flight; (c) a call is accepted only when no
operation for that task is in flight. -/
theorem syncGuard_exclusive (l : List GuardEvent) (t : String) :
    ((guardRun l).saving t = true → callSync (guardRun l) t = (guardRun l, false)) ∧
    (guardRun l).active t ≤ 1 ∧
    ((callSync (guardRun l) t).2 = true → (guardRun l).active t = 0) := by
  have h := guardInv_run l t
  refine ⟨fun hs => ?_, ?_, fun hacc => ?_⟩
  · unfold callSync
    rw [if_pos hs]
  · rw [h]
    by_cases hs : (guardRun l).saving t = true <;> simp [hs]
  · by_cases hs : (guardRun l).saving t = true
    · unfold callSync at hacc
      rw [if_pos hs] at hacc
      simp at hacc
    · rw [h, if_neg hs]

/-- C6 (witness): after a single accepted call for task `T`, a second call
for `T` is rejected with the state unchanged, and at most one operation is
in flight. -/
theorem syncGuard_exclusive_witness :
    callSync (guardRun [GuardEvent.call "T"]) "T" = (guardRun [GuardEvent.call "T"], false) ∧
    (guardRun [GuardEvent.call "T"]).active "T" ≤ 1 :=
  ⟨(syncGuard_exclusive [GuardEvent.call "T"] "T").1 (by decide),
   (syncGuard_exclusive [GuardEvent.call "T"] "T").2.1⟩

/-! The complete/reopen authorization behaviour. -/

/-- C7 (counterexample): an authenticated non-admin caller (`U`) targets a
assignment row of a different identity (`V`); the handler replies ok (HTTP
200) and flips that row — it does not return a NotAuthorized error and
does not leave the row unchanged. -/
theorem completeReopen_no_identity_check_cex :
    sessC7.ok = true ∧
    sessC7.role = some "user" ∧
    sessC7.userId = some "U" ∧
    ("V" : String) ≠ "U" ∧
    (completeReopen "NOW" sessC7 true "T" "V" [rowC7]).1 = 200 ∧
    (completeReopen "NOW" sessC7 true "T" "V" [rowC7]).2 =
      [{ rowC7 with status := "complete", completed_at := some "NOW" }] ∧
    [{ rowC7 with status := "complete", completed_at := some "NOW" }] ≠ [rowC7] := by
  exact ⟨rfl, rfl, rfl, by decide, rfl, rfl, by decide⟩

/-- C7 (amended): the server-side complete/reopen handler performs no
caller-identity check — its result depends on the session only through
`sess.ok`, so any authenticated caller may flip the row of any assignee; the
self-service restriction lives in the client alone, whose toggle target
for a non-admin caller is always the own identity of the caller (`userId`, else
`accessCodeId`, else nothing) and never the admin-selected acting
assignee. -/
theorem completeReopen_identity_independent (now : String) (s1 s2 : Session)
    (hok : s1.ok = s2.ok) (c : Bool) (taskId assigneeId : String) (db : List DbAssign) :
    completeReopen now s1 c taskId assigneeId db =
      completeReopen now s2 c taskId assigneeId db ∧
    ∀ (acting : Option String) (userId accessCodeId : String),
      targetAssigneeIdForTaskActions false acting userId accessCodeId = none ∨
      targetAssigneeIdForTaskActions false acting userId accessCodeId = some userId ∨
      targetAssigneeIdForTaskActions false acting userId accessCodeId = some accessCodeId := by
  constructor
  · simp only [completeReopen, hok]
  · intro acting u a
    simp only [targetAssigneeIdForTaskActions]
    split_ifs <;> simp_all

/-- C7 (witness): the amended theorem at a concrete input — the non-admin
session and an admin session with the same `ok` produce identical handler
results. -/
theorem completeReopen_identity_independent_witness :
    completeReopen "NOW" sessC7 true "T" "V" [rowC7] =
      completeReopen "NOW" sessOk true "T" "V" [rowC7] :=
  (completeReopen_identity_independent "NOW" sessC7 sessOk rfl true "T" "V" [rowC7]).1

/-! Duplicate-row handling. -/

/-- C8 (counterexample): with two stored rows for the pair `(T, A)`, the
sync action (a mutating operation on the state of that pair — here it removes
the pair) does not report a Conflict: it replies 200 and performs the
mutation, deleting both duplicate rows. -/
theorem syncAction_ignores_duplicates_cex :
    (List.filter (fun r => r.task_id == "T" && r.assignee_id == "A")
        [dupRow1, dupRow2]).length = 2 ∧
    (syncAction sessOk "T" [] [dupRow1, dupRow2]).1 = 200 ∧
    (syncAction sessOk "T" [] [dupRow1, dupRow2]).2 = [] ∧
    (200 : Nat) ≠ 409 := by
  exact ⟨rfl, rfl, rfl, by decide⟩

/-- C8 (amended): only the complete/reopen mutation detects duplicate rows
for its target pair, replying Conflict (409) with the store unchanged; the
sync action performs no duplicate detection and always replies 200 for an
authenticated caller, proceeding with its diff. -/
theorem duplicate_rows_handling (now : String) (sess : Session) (c : Bool)
    (taskId assigneeId : String) (nextIds : List String) (db : List DbAssign)
    (hok : sess.ok = true)
    (hdup : 2 ≤ (db.filter
      (fun r => r.task_id == taskId && r.assignee_id == assigneeId)).length) :
    completeReopen now sess c taskId assigneeId db = (409, db) ∧
    (syncAction sess taskId nextIds db).1 = 200 := by
  constructor
  · unfold completeReopen
    rw [if_neg (by simp [hok])]
    rcases hf : db.filter
        (fun r => r.task_id == taskId && r.assignee_id == assigneeId) with _ | ⟨a, _ | ⟨b, rest⟩⟩
    · rw [hf] at hdup
      simp at hdup
    · rw [hf] at hdup
      simp at hdup
    · simp only [hf]
  · unfold syncAction
    rw [if_neg (by simp [hok])]

/-- C8 (witness): the amended theorem at the concrete duplicate store. -/
theorem duplicate_rows_handling_witness :
    completeReopen "NOW" sessOk true "T" "A" [dupRow1, dupRow2] =
      (409, [dupRow1, dupRow2]) ∧
    (syncAction sessOk "T" ["A"] [dupRow1, dupRow2]).1 = 200 :=
  duplicate_rows_handling "NOW" sessOk true "T" "A" ["A"] [dupRow1, dupRow2] rfl (by decide)

/-! Cascading task deletion. -/

/-- C9: for an authenticated caller and a non-empty id, the DELETE handler
is exactly the removal of the assignment rows of the task followed by the
removal of the task row (in that order), and the resulting store holds no
assignment row for that task id. -/
theorem deleteTask_cascade (sess : Session) (id : String) (db : Db)
    (hok : sess.ok = true) (hid : id ≠ "") :
    deleteTaskApi sess id db = (200, deleteTaskRow id (deleteAssignmentsOf id db)) ∧
    ∀ r ∈ (deleteTaskApi sess id db).2.assignments, r.task_id ≠ id := by
  have h1 : deleteTaskApi sess id db = (200, deleteTaskRow id (deleteAssignmentsOf id db)) := by
    unfold deleteTaskApi
    rw [if_neg (by simp [hok]), if_neg hid]
  refine ⟨h1, ?_⟩
  rw [h1]
  intro r hr
  simp only [deleteTaskRow, deleteAssignmentsOf] at hr
  rcases List.mem_filter.1 hr with ⟨-, hp⟩
  intro he
  simp [he] at hp

/-- C9 (witness): deleting task `T` from the concrete store removes both of
its assignment rows before the task row, leaving no assignment for `T`. -/
theorem deleteTask_cascade_witness :
    deleteTaskApi sessOk "T" dbC9 = (200, deleteTaskRow "T" (deleteAssignmentsOf "T" dbC9)) ∧
    ∀ r ∈ (deleteTaskApi sessOk "T" dbC9).2.assignments, r.task_id ≠ "T" :=
  deleteTask_cascade sessOk "T" dbC9 rfl (by decide)

end TaskApp
